import Mathlib

/-!
Verification development for a WebRTC signaling server (src/index.ts).

The server keeps a `Map<string, SignalClient>` registry (`this.clients`).
Each accepted connection gets one `SignalClient` object, captured by the
connection's event-handler closures; the registry stores references to the
same objects, so in-place mutation of a client object (its `id` or
`lastSeen` field) is observed both through the registry and through the
closures.  We model this object identity with two maps:

  * `clients  : List (String × Nat)`     -- the registry: id key ↦ connection handle
  * `objs     : List (Nat × SignalClient)` -- connection handle ↦ the (unique) client
                                              object created for that connection

A registry value in the TypeScript code is the object `objs[conn]`; the
registry stores which connection each id key resolves to.

The transport layer is external: each send either writes to an open socket,
is skipped (socket not open), or throws.  `Env` supplies, per connection,
whether the socket's readyState is OPEN and whether `socket.send` throws.
Successful writes are recorded in a `sent` trace of (connection, message)
pairs.  `live` records which connections can still deliver inbound frames
(a socket that was closed or terminated emits no further `message` events;
note that `handleDisconnect` itself never closes the socket, so a client
removed by the transport-failure path stays live).
-/

namespace SignalServer

/-- Mirrors `interface SignalClient` from src/index.ts: `id`, `socket`
(represented by the connection handle `conn`), `lastSeen`. -/
structure SignalClient where
  id : String
  conn : Nat
  lastSeen : Nat
deriving DecidableEq, Repr

/-- Mirrors `interface SignalMessage` plus the extra fields the server
puts on outbound wire objects (`peers`, `message`).  The negotiation
payloads (`offer`/`answer`/`candidate`) are opaque; one `payload` field
stands for all of them. -/
structure SignalMessage where
  type : String
  source : Option String := none
  target : Option String := none
  peerId : Option String := none
  payload : Option Nat := none
  peers : Option (List String) := none
  message : Option String := none
deriving DecidableEq, Repr

/-- `Map.get` on an insertion-ordered association list (JS `Map` keeps
keys unique; `mapSet`/`mapDelete` below preserve that). -/
def mapGet (m : List (String × Nat)) (k : String) : Option Nat :=
  match m with
  | [] => none
  | (k', v) :: rest => if k' = k then some v else mapGet rest k

/-- `Map.has`. -/
def mapHas (m : List (String × Nat)) (k : String) : Bool :=
  (mapGet m k).isSome

/-- `Map.set`: replace the value at an existing key in place, otherwise
append a fresh entry. -/
def mapSet (m : List (String × Nat)) (k : String) (v : Nat) : List (String × Nat) :=
  match m with
  | [] => [(k, v)]
  | (k', v') :: rest => if k' = k then (k', v) :: rest else (k', v') :: mapSet rest k v

/-- `Map.delete`. -/
def mapDelete (m : List (String × Nat)) (k : String) : List (String × Nat) :=
  m.filter (fun p => p.1 ≠ k)

/-- Lookup of a connection's client object. -/
def objGet (m : List (Nat × SignalClient)) (k : Nat) : Option SignalClient :=
  match m with
  | [] => none
  | (k', v) :: rest => if k' = k then some v else objGet rest k

/-- Update/insert a connection's client object (models in-place mutation
of the JS object shared between registry and closures). -/
def objSet (m : List (Nat × SignalClient)) (k : Nat) (v : SignalClient) :
    List (Nat × SignalClient) :=
  match m with
  | [] => [(k, v)]
  | (k', v') :: rest => if k' = k then (k', v) :: rest else (k', v') :: objSet rest k v

/-- Per-moment transport conditions supplied by the external WebSocket
layer: whether a connection's `readyState` is `OPEN`, and whether a
`socket.send` on it throws. -/
structure Env where
  isOpen : Nat → Bool
  sendFails : Nat → Bool

/-- The whole observable server state.  `clients` is the registry map
(id key ↦ connection handle), `objs` gives the unique client object each
connection's closures capture (the registry's values are these objects),
`live` lists connections that can still emit inbound frames, and `sent`
is the trace of successful socket writes (connection, wire object). -/
structure World where
  clients : List (String × Nat)
  objs : List (Nat × SignalClient)
  live : List Nat
  sent : List (Nat × SignalMessage)
deriving DecidableEq, Repr

/-- The freshly started server: empty registry, no connections. -/
def World.init : World := ⟨[], [], [], []⟩

/-- `MAX_IDLE_TIME` from `startHeartbeatCheck` (milliseconds; the spec's
"90 time-units"). -/
def MAX_IDLE_TIME : Nat := 90000

/-- The `error` reply of the id-conflict branch of `handleRegister`. -/
def idInUseMsg : SignalMessage :=
  { type := "error", message := some "Peer ID already in use" }

/-- The `peers{ids}` wire object built from a registry snapshot
(`Array.from(this.clients.keys())`). -/
def peersMsg (reg : List (String × Nat)) : SignalMessage :=
  { type := "peers", peers := some (reg.map Prod.fst) }

/-- The per-recipient deliveries of `broadcast(message)`: it iterates
`this.clients.values()`, and for each client writes iff the socket is
open and the write does not throw (a throw is caught and only logged). -/
def broadcastSends (env : Env) (reg : List (String × Nat))
    (objs : List (Nat × SignalClient)) (msg : SignalMessage) :
    List (Nat × SignalMessage) :=
  reg.filterMap (fun p =>
    match objGet objs p.2 with
    | some c => if env.isOpen c.conn && !env.sendFails c.conn then some (c.conn, msg) else none
    | none => none)

/-- `broadcast`: best-effort delivery to every registry value; mutates
nothing but the trace. -/
def broadcast (env : Env) (w : World) (msg : SignalMessage) : World :=
  { w with sent := w.sent ++ broadcastSends env w.clients w.objs msg }

/-- `broadcastPeerList`. -/
def broadcastPeerList (env : Env) (w : World) : World :=
  broadcast env w (peersMsg w.clients)

/-- `handleDisconnect(client)`: delete the registry entry under the
client object's current id, then re-broadcast the peer list.  It does
NOT close or terminate the socket. -/
def handleDisconnect (env : Env) (w : World) (c : SignalClient) : World :=
  broadcastPeerList env { w with clients := mapDelete w.clients c.id }

/-- `sendToClient(client, message)`: write iff `readyState === OPEN`; a
throw is caught and handled as an implicit disconnect of that client.
The caller never sees a failure (the function is total). -/
def sendToClient (env : Env) (w : World) (c : SignalClient) (msg : SignalMessage) : World :=
  if env.isOpen c.conn then
    if env.sendFails c.conn then handleDisconnect env w c
    else { w with sent := w.sent ++ [(c.conn, msg)] }
  else w

/-- `sendPeerList(client)`: direct `peers` reply to one client. -/
def sendPeerList (env : Env) (w : World) (c : SignalClient) : World :=
  sendToClient env w c (peersMsg w.clients)

/-- JS truthiness of `message.peerId`: `!message.peerId` is true when the
field is absent or the empty string. -/
def peerIdFalsy : Option String → Bool
  | none => true
  | some s => s.isEmpty

/-- The guard of the conflict branch of `handleRegister`:
`this.clients.has(newPeerId) && this.clients.get(newPeerId)?.id !== client.id`. -/
def registerConflict (w : World) (newPeerId : String) (c : SignalClient) : Bool :=
  match mapGet w.clients newPeerId with
  | none => false
  | some cn => ((objGet w.objs cn).map SignalClient.id) != some c.id

/-- `handleRegister(message, client)`.  On success it deletes the entry
under the client object's current id, mutates the object's `id` field,
inserts the new key bound to the same object, confirms with
`registered{peerId}`, and broadcasts the directory. -/
def handleRegister (env : Env) (w : World) (msg : SignalMessage) (c : SignalClient) : World :=
  if peerIdFalsy msg.peerId then w
  else
    let newPeerId := msg.peerId.getD ""
    if registerConflict w newPeerId c then
      sendToClient env w c idInUseMsg
    else
      let w1 : World := { w with clients := mapDelete w.clients c.id }
      let c' : SignalClient := { c with id := newPeerId }
      let w2 : World := { w1 with objs := objSet w1.objs c.conn c',
                                  clients := mapSet w1.clients newPeerId c.conn }
      let w3 : World := sendToClient env w2 c' { type := "registered", peerId := some newPeerId }
      broadcastPeerList env w3

/-- `relayMessage(message)`: look up `message.target` and forward the
message object verbatim; absent target or unknown target is logged and
dropped with no reply to the sender. -/
def relayMessage (env : Env) (w : World) (msg : SignalMessage) : World :=
  match msg.target with
  | none => w
  | some t =>
    match mapGet w.clients t with
    | none => w
    | some cn =>
      match objGet w.objs cn with
      | none => w
      | some tc => sendToClient env w tc msg

/-- Message types routed to `relayMessage`. -/
def isRelayType (t : String) : Bool :=
  t = "offer" || t = "answer" || t = "ice-candidate"

/-- `handleMessage(messageData, client)`.  `raw = none` models a frame
that `JSON.parse` rejects: the catch block logs and returns, so nothing
at all changes (in particular `lastSeen` is NOT updated, because the
update sits after the parse inside the `try`).  A decoded frame first
updates the client object's `lastSeen`, then dispatches on `type`;
`heartbeat` and unknown types do nothing further. -/
def handleMessage (env : Env) (w : World) (raw : Option SignalMessage)
    (c : SignalClient) (now : Nat) : World :=
  match raw with
  | none => w
  | some msg =>
    let c1 : SignalClient := { c with lastSeen := now }
    let w1 : World := { w with objs := objSet w.objs c.conn c1 }
    if msg.type = "register" then handleRegister env w1 msg c1
    else if isRelayType msg.type then relayMessage env w1 msg
    else if msg.type = "get-peers" then sendPeerList env w1 c1
    else w1

/-- Whether a registry entry is idle beyond `MAX_IDLE_TIME` at `now`
(`now - client.lastSeen > MAX_IDLE_TIME`; `Date.now()` is monotone, and
Nat truncated subtraction agrees with the JS comparison also when the
stamp is in the future). -/
def entryIdle (objs : List (Nat × SignalClient)) (now : Nat) (p : String × Nat) : Bool :=
  match objGet objs p.2 with
  | some c => now - c.lastSeen > MAX_IDLE_TIME
  | none => false

/-- One firing of the `startHeartbeatCheck` interval: every idle entry's
socket is terminated (errors ignored) and its entry deleted; afterwards
the peer list is broadcast unconditionally. -/
def sweepWorld (env : Env) (w : World) (now : Nat) : World :=
  let evictedConns := (w.clients.filter (entryIdle w.objs now)).map Prod.snd
  let w1 : World :=
    { w with clients := w.clients.filter (fun p => !entryIdle w.objs now p),
             live := w.live.filter (fun cn => !evictedConns.contains cn) }
  broadcastPeerList env w1

/-- External events driving the server: a new connection accepted (with
its collision-free provisional uuid and the accept time), an inbound
frame on a live connection, a socket close, and a heartbeat-interval
firing.  Each event carries the transport conditions under which its
handler runs. -/
inductive Event where
  | connect (cn : Nat) (tempId : String) (now : Nat)
  | frame (cn : Nat) (raw : Option SignalMessage) (now : Nat)
  | close (cn : Nat)
  | sweep (now : Nat)

/-- One event handled to completion (the execution model is
single-threaded and run-to-completion).  `connect` requires a fresh
socket handle and a collision-free uuid — guarantees of the transport
layer and of uuidv4 — and mirrors the `connection` handler: store the
client object, then `sendToClient(welcome)`.  `frame` fires only on a
live connection and passes the closure-captured client object.  `close`
marks the socket dead and runs `handleDisconnect`. -/
def step (env : Env) (w : World) (e : Event) : World :=
  match e with
  | .connect cn tempId now =>
    if objGet w.objs cn = none && !mapHas w.clients tempId then
      let c : SignalClient := ⟨tempId, cn, now⟩
      let w1 : World := { w with objs := objSet w.objs cn c,
                                 clients := mapSet w.clients tempId cn,
                                 live := cn :: w.live }
      sendToClient env w1 c { type := "welcome", peerId := some tempId }
    else w
  | .frame cn raw now =>
    if w.live.contains cn then
      match objGet w.objs cn with
      | some c => handleMessage env w raw c now
      | none => w
    else w
  | .close cn =>
    if w.live.contains cn then
      match objGet w.objs cn with
      | some c => handleDisconnect env { w with live := w.live.filter (fun x => x ≠ cn) } c
      | none => w
    else w
  | .sweep now => sweepWorld env w now

/-- A full run: events handled in order from the initial server state. -/
def run (w : World) (script : List (Env × Event)) : World :=
  match script with
  | [] => w
  | p :: rest => run (step p.1 w p.2) rest

/-- The registry has at most one entry per id (JS `Map` key uniqueness). -/
def ndK (reg : List (String × Nat)) : Prop :=
  (reg.map Prod.fst).Nodup

/-- Every registry entry's value is a client object whose `id` field
equals the entry's key. -/
def pgRO (reg : List (String × Nat)) (objs : List (Nat × SignalClient)) : Prop :=
  ∀ p ∈ reg, ∃ c, objGet objs p.2 = some c ∧ c.id = p.1

/-- Every stored client object's `conn` field is the handle it is stored
under (objects are created once per connection). -/
def cgO (objs : List (Nat × SignalClient)) : Prop :=
  ∀ cn c, objGet objs cn = some c → c.conn = cn

/-- The structural registry invariant. -/
def Inv (w : World) : Prop :=
  ndK w.clients ∧ pgRO w.clients w.objs ∧ cgO w.objs

/-- Every live connection's client object is registered under its current
id.  This holds as long as no send throws: the only way to drop a
registry entry without killing the socket is the transport-failure path
of `sendToClient`. -/
def liRO (l : List Nat) (reg : List (String × Nat))
    (objs : List (Nat × SignalClient)) : Prop :=
  ∀ cn ∈ l, ∀ c, objGet objs cn = some c → mapGet reg c.id = some cn

/-- The full invariant used for transport-failure-free executions. -/
def InvL (w : World) : Prop :=
  Inv w ∧ liRO w.live w.clients w.objs

/-- No send throws under this environment. -/
def NoFail (env : Env) : Prop :=
  ∀ cn, env.sendFails cn = false

/-- All sockets open and no send throws. -/
def Benign (env : Env) : Prop :=
  ∀ cn, env.isOpen cn = true ∧ env.sendFails cn = false

/-- Concrete transport conditions: all sockets open, no send throws. -/
def envOK : Env := ⟨fun _ => true, fun _ => false⟩

/-- Concrete transport conditions: all sockets open, but a send on
connection 0 throws. -/
def envFail0 : Env := ⟨fun _ => true, fun cn => cn == 0⟩

/-- The frame register{peerId:"x"}. -/
def regX : SignalMessage := { type := "register", peerId := some "x" }

/-- The frame register{peerId:"q"}. -/
def regQ : SignalMessage := { type := "register", peerId := some "q" }

/-- The frame offer{target:"x"}. -/
def offerX : SignalMessage := { type := "offer", target := some "x" }

/-- The frame offer{target:"t"}. -/
def offerT : SignalMessage := { type := "offer", target := some "t" }

/-- Six events: connection 0 is accepted and registers "x"; connection 1
is accepted; connection 1's offer to "x" hits connection 0's throwing
socket, so the server implicitly disconnects 0 while its socket stays
alive; connection 2 is accepted and registers "x". -/
def script6 : List (Env × Event) :=
  [(envOK, .connect 0 "t" 0),
   (envOK, .frame 0 (some regX) 1),
   (envOK, .connect 1 "u" 2),
   (envFail0, .frame 1 (some offerX) 3),
   (envOK, .connect 2 "v" 4),
   (envOK, .frame 2 (some regX) 5)]

/-- One accepted connection: handle 0, provisional id "t", at time 0. -/
def scriptA : List (Env × Event) := [(envOK, .connect 0 "t" 0)]

/-- The server state after `scriptA`. -/
def wA : World := run World.init scriptA

/-- Connections 0 and 1 accepted, then connection 0 registers "q". -/
def scriptB : List (Env × Event) :=
  [(envOK, .connect 0 "t" 0), (envOK, .connect 1 "u" 2),
   (envOK, .frame 0 (some regQ) 3)]

/-- The server state after `scriptB`. -/
def wB : World := run World.init scriptB

/-- Two accepted connections: handle 5 (id "q") and handle 1 (id "t"). -/
def scriptW : List (Env × Event) :=
  [(envOK, .connect 5 "q" 0), (envOK, .connect 1 "t" 1)]

/-- The server state after `scriptW`. -/
def wW : World := run World.init scriptW

theorem mapGet_mapSet (m : List (String × Nat)) (k k' : String) (v : Nat) :
    mapGet (mapSet m k v) k' = if k = k' then some v else mapGet m k' := by
  induction m with
  | nil =>
    by_cases h : k = k' <;> simp [mapSet, mapGet, h]
  | cons p rest ih =>
    obtain ⟨a, b⟩ := p
    simp only [mapSet]
    by_cases hak : a = k
    · subst hak
      simp only [if_pos rfl, mapGet]
      by_cases h : a = k' <;> simp [h]
    · simp only [if_neg hak, mapGet]
      by_cases h : a = k'
      · have hkk : ¬ k = k' := fun hh => hak (h.trans hh.symm)
        simp [h, hkk]
      · simp [h, ih]

theorem mapGet_mapDelete (m : List (String × Nat)) (k k' : String) :
    mapGet (mapDelete m k) k' = if k' = k then none else mapGet m k' := by
  induction m with
  | nil => simp [mapDelete, mapGet]
  | cons p rest ih =>
    obtain ⟨a, b⟩ := p
    by_cases hak : a = k <;> by_cases hak' : a = k' <;>
      simp_all [mapDelete, mapGet, List.filter]

theorem objGet_objSet (m : List (Nat × SignalClient)) (k k' : Nat) (v : SignalClient) :
    objGet (objSet m k v) k' = if k = k' then some v else objGet m k' := by
  induction m with
  | nil =>
    by_cases h : k = k' <;> simp [objSet, objGet, h]
  | cons p rest ih =>
    obtain ⟨a, b⟩ := p
    simp only [objSet]
    by_cases hak : a = k
    · subst hak
      simp only [if_pos rfl, objGet]
      by_cases h : a = k' <;> simp [h]
    · simp only [if_neg hak, objGet]
      by_cases h : a = k'
      · have hkk : ¬ k = k' := fun hh => hak (h.trans hh.symm)
        simp [h, hkk]
      · simp [h, ih]

theorem mapGet_mem {m : List (String × Nat)} {k : String} {v : Nat}
    (h : mapGet m k = some v) : (k, v) ∈ m := by
  induction m with
  | nil => simp [mapGet] at h
  | cons p rest ih =>
    obtain ⟨a, b⟩ := p
    simp only [mapGet] at h
    by_cases hak : a = k
    · rw [if_pos hak] at h
      obtain rfl := hak
      obtain rfl : b = v := by injection h
      exact List.mem_cons_self _ _
    · rw [if_neg hak] at h
      exact List.mem_cons_of_mem _ (ih h)

theorem mem_mapSet {m : List (String × Nat)} {k : String} {v : Nat}
    {p : String × Nat} (h : p ∈ mapSet m k v) : p = (k, v) ∨ p ∈ m := by
  induction m with
  | nil => simp [mapSet] at h; simp [h]
  | cons q rest ih =>
    obtain ⟨a, b⟩ := q
    simp only [mapSet] at h
    by_cases hak : a = k
    · rw [if_pos hak] at h
      rcases List.mem_cons.mp h with h1 | h1
      · left; rw [h1, hak]
      · right; exact List.mem_cons_of_mem _ h1
    · rw [if_neg hak] at h
      rcases List.mem_cons.mp h with h1 | h1
      · right; rw [h1]; exact List.mem_cons_self _ _
      · rcases ih h1 with h2 | h2
        · left; exact h2
        · right; exact List.mem_cons_of_mem _ h2

theorem mapGet_none_of_not_mem_keys {m : List (String × Nat)} {k : String}
    (h : k ∉ m.map Prod.fst) : mapGet m k = none := by
  induction m with
  | nil => rfl
  | cons p rest ih =>
    obtain ⟨a, b⟩ := p
    simp only [List.map_cons, List.mem_cons] at h
    push_neg at h
    simp only [mapGet]
    rw [if_neg (fun hh => h.1 hh.symm)]
    exact ih h.2

theorem mem_keys_of_mapGet {m : List (String × Nat)} {k : String} {v : Nat}
    (h : mapGet m k = some v) : k ∈ m.map Prod.fst := by
  by_contra hk
  rw [mapGet_none_of_not_mem_keys hk] at h
  exact Option.noConfusion h

theorem keys_mapSet_subset {m : List (String × Nat)} {k x : String} {v : Nat}
    (h : x ∈ (mapSet m k v).map Prod.fst) : x = k ∨ x ∈ m.map Prod.fst := by
  rcases List.mem_map.mp h with ⟨p, hp, hx⟩
  rcases mem_mapSet hp with h1 | h1
  · left; rw [h1] at hx; exact hx.symm
  · right; exact List.mem_map.mpr ⟨p, h1, hx⟩

theorem ndK_mapSet {m : List (String × Nat)} {k : String} {v : Nat}
    (h : ndK m) : ndK (mapSet m k v) := by
  induction m with
  | nil => simp [ndK, mapSet]
  | cons p rest ih =>
    obtain ⟨a, b⟩ := p
    simp only [ndK, List.map_cons, List.nodup_cons] at h
    by_cases hak : a = k
    · simp only [ndK, mapSet, if_pos hak, List.map_cons, List.nodup_cons]
      exact h
    · simp only [ndK, mapSet, if_neg hak, List.map_cons, List.nodup_cons]
      refine ⟨?_, ih h.2⟩
      intro hmem
      rcases keys_mapSet_subset hmem with h1 | h1
      · exact hak h1
      · exact h.1 h1

theorem ndK_filter {m : List (String × Nat)} (q : String × Nat → Bool)
    (h : ndK m) : ndK (m.filter q) := by
  exact List.Nodup.sublist (List.Sublist.map Prod.fst (List.filter_sublist m)) h

theorem mapGet_filter_of_ndK {m : List (String × Nat)} {k : String} {v : Nat}
    (q : String × Nat → Bool) (hnd : ndK m) (h : mapGet m k = some v) :
    mapGet (m.filter q) k = if q (k, v) then some v else none := by
  induction m with
  | nil => simp [mapGet] at h
  | cons p rest ih =>
    obtain ⟨a, b⟩ := p
    simp only [ndK, List.map_cons, List.nodup_cons] at hnd
    simp only [mapGet] at h
    by_cases hak : a = k
    · rw [if_pos hak] at h
      obtain rfl := hak
      injection h with hbv
      subst hbv
      have hknone : mapGet (rest.filter q) a = none := by
        apply mapGet_none_of_not_mem_keys
        intro hmem
        rcases List.mem_map.mp hmem with ⟨p, hp, hx⟩
        exact hnd.1 (List.mem_map.mpr ⟨p, List.mem_of_mem_filter hp, hx⟩)
      by_cases hq : q (a, b)
      · simp [List.filter_cons, hq, mapGet]
      · simp [List.filter_cons, hq, hknone]
    · rw [if_neg hak] at h
      by_cases hq : q (a, b)
      · simp [List.filter_cons, hq, mapGet, hak, ih hnd.2 h]
      · simp [List.filter_cons, hq, ih hnd.2 h]

theorem broadcast_clients (env : Env) (w : World) (m : SignalMessage) :
    (broadcast env w m).clients = w.clients := rfl

theorem broadcast_objs (env : Env) (w : World) (m : SignalMessage) :
    (broadcast env w m).objs = w.objs := rfl

theorem broadcast_live (env : Env) (w : World) (m : SignalMessage) :
    (broadcast env w m).live = w.live := rfl

theorem hd_clients (env : Env) (w : World) (c : SignalClient) :
    (handleDisconnect env w c).clients = mapDelete w.clients c.id := rfl

theorem hd_objs (env : Env) (w : World) (c : SignalClient) :
    (handleDisconnect env w c).objs = w.objs := rfl

theorem hd_live (env : Env) (w : World) (c : SignalClient) :
    (handleDisconnect env w c).live = w.live := rfl

theorem stc_objs (env : Env) (w : World) (c : SignalClient) (m : SignalMessage) :
    (sendToClient env w c m).objs = w.objs := by
  unfold sendToClient
  split_ifs <;> rfl

theorem stc_live (env : Env) (w : World) (c : SignalClient) (m : SignalMessage) :
    (sendToClient env w c m).live = w.live := by
  unfold sendToClient
  split_ifs <;> rfl

theorem stc_clients_or (env : Env) (w : World) (c : SignalClient) (m : SignalMessage) :
    (sendToClient env w c m).clients = w.clients ∨
    (sendToClient env w c m).clients = mapDelete w.clients c.id := by
  unfold sendToClient
  split_ifs
  · right; rfl
  · left; rfl
  · left; rfl

theorem stc_clients_nofail (env : Env) (w : World) (c : SignalClient)
    (m : SignalMessage) (h : env.sendFails c.conn = false) :
    (sendToClient env w c m).clients = w.clients := by
  unfold sendToClient
  split_ifs with h1 h2
  · rw [h] at h2; exact absurd h2 (by simp)
  · rfl
  · rfl

theorem pg_filter {reg : List (String × Nat)} {objs : List (Nat × SignalClient)}
    (q : String × Nat → Bool) (h : pgRO reg objs) : pgRO (reg.filter q) objs :=
  fun p hp => h p (List.mem_of_mem_filter hp)

theorem pg_delete {reg : List (String × Nat)} {objs : List (Nat × SignalClient)}
    (k : String) (h : pgRO reg objs) : pgRO (mapDelete reg k) objs :=
  pg_filter _ h

theorem pg_objSet_keep {reg : List (String × Nat)} {objs : List (Nat × SignalClient)}
    {cn : Nat} {c c' : SignalClient} (h : pgRO reg objs)
    (hobj : objGet objs cn = some c) (hid : c'.id = c.id) :
    pgRO reg (objSet objs cn c') := by
  intro p hp
  rcases h p hp with ⟨c0, hc0, hcid⟩
  by_cases hcn : cn = p.2
  · subst hcn
    rw [hobj] at hc0
    obtain rfl : c = c0 := by injection hc0
    exact ⟨c', by rw [objGet_objSet, if_pos rfl], by rw [hid, hcid]⟩
  · exact ⟨c0, by rw [objGet_objSet, if_neg hcn]; exact hc0, hcid⟩

theorem pg_register {reg : List (String × Nat)} {objs : List (Nat × SignalClient)}
    {cn : Nat} {c : SignalClient} (p : String) (h : pgRO reg objs)
    (hobj : objGet objs cn = some c) :
    pgRO (mapSet (mapDelete reg c.id) p cn) (objSet objs cn { c with id := p }) := by
  intro q hq
  rcases mem_mapSet hq with h1 | h1
  · subst h1
    exact ⟨{ c with id := p }, by rw [objGet_objSet, if_pos rfl], rfl⟩
  · have hq2 : q ∈ reg := List.mem_of_mem_filter h1
    have hq1 : q.1 ≠ c.id := by
      have := List.of_mem_filter h1
      simpa [mapDelete] using this
    rcases h q hq2 with ⟨c0, hc0, hcid⟩
    by_cases hcn : cn = q.2
    · subst hcn
      rw [hobj] at hc0
      obtain rfl : c = c0 := by injection hc0
      exact absurd hcid.symm hq1
    · exact ⟨c0, by rw [objGet_objSet, if_neg hcn]; exact hc0, hcid⟩

theorem pg_connect {reg : List (String × Nat)} {objs : List (Nat × SignalClient)}
    {cn : Nat} (t : String) (now : Nat) (h : pgRO reg objs)
    (hfresh : objGet objs cn = none) :
    pgRO (mapSet reg t cn) (objSet objs cn ⟨t, cn, now⟩) := by
  intro q hq
  rcases mem_mapSet hq with h1 | h1
  · subst h1
    exact ⟨⟨t, cn, now⟩, by rw [objGet_objSet, if_pos rfl], rfl⟩
  · rcases h q h1 with ⟨c0, hc0, hcid⟩
    by_cases hcn : cn = q.2
    · subst hcn
      rw [hfresh] at hc0
      exact Option.noConfusion hc0
    · exact ⟨c0, by rw [objGet_objSet, if_neg hcn]; exact hc0, hcid⟩

theorem cg_objSet {objs : List (Nat × SignalClient)} {cn : Nat}
    {v : SignalClient} (h : cgO objs) (hv : v.conn = cn) :
    cgO (objSet objs cn v) := by
  intro cn0 c hc
  rw [objGet_objSet] at hc
  by_cases hcn : cn = cn0
  · rw [if_pos hcn] at hc
    obtain rfl : v = c := by injection hc
    rw [hv, hcn]
  · rw [if_neg hcn] at hc
    exact h cn0 c hc

theorem inv_stc (env : Env) (w : World) (c : SignalClient) (m : SignalMessage)
    (h : Inv w) : Inv (sendToClient env w c m) := by
  obtain ⟨hnd, hpg, hcg⟩ := h
  rcases stc_clients_or env w c m with h1 | h1 <;>
    rw [Inv, h1, stc_objs]
  · exact ⟨hnd, hpg, hcg⟩
  · exact ⟨ndK_filter _ hnd, pg_delete _ hpg, hcg⟩

theorem inv_bpl (env : Env) (w : World) (h : Inv w) : Inv (broadcastPeerList env w) :=
  h

theorem inv_handleRegister (env : Env) (w : World) (msg : SignalMessage)
    (c : SignalClient) (h : Inv w) (hobj : objGet w.objs c.conn = some c) :
    Inv (handleRegister env w msg c) := by
  simp only [handleRegister]
  split_ifs with h1 h2
  · exact h
  · exact inv_stc env w c idInUseMsg h
  · apply inv_bpl
    apply inv_stc
    obtain ⟨hnd, hpg, hcg⟩ := h
    exact ⟨ndK_mapSet (ndK_filter _ hnd), pg_register _ hpg hobj, cg_objSet hcg rfl⟩

theorem inv_relay (env : Env) (w : World) (msg : SignalMessage)
    (h : Inv w) : Inv (relayMessage env w msg) := by
  simp only [relayMessage]
  split
  · exact h
  · split
    · exact h
    · split
      · exact h
      · exact inv_stc _ _ _ _ h

theorem inv_handleMessage (env : Env) (w : World) (raw : Option SignalMessage)
    (c : SignalClient) (now : Nat) (h : Inv w)
    (hobj : objGet w.objs c.conn = some c) :
    Inv (handleMessage env w raw c now) := by
  rcases raw with _ | msg
  · simpa only [handleMessage] using h
  · obtain ⟨hnd, hpg, hcg⟩ := h
    have hw1 : Inv { w with objs := objSet w.objs c.conn { c with lastSeen := now } } :=
      ⟨hnd, pg_objSet_keep hpg hobj rfl, cg_objSet hcg rfl⟩
    have hobj1 : objGet (objSet w.objs c.conn { c with lastSeen := now }) c.conn
        = some { c with lastSeen := now } := by
      rw [objGet_objSet, if_pos rfl]
    simp only [handleMessage]
    split_ifs with h1 h2 h3
    · exact inv_handleRegister env _ msg _ hw1 hobj1
    · exact inv_relay env _ msg hw1
    · exact inv_stc env _ _ _ hw1
    · exact hw1

theorem inv_step (env : Env) (w : World) (e : Event)
    (h : Inv w) : Inv (step env w e) := by
  obtain ⟨hnd, hpg, hcg⟩ := h
  rcases e with ⟨cn, tempId, now⟩ | ⟨cn, raw, now⟩ | cn | now
  · simp only [step]
    split_ifs with h1
    · simp only [Bool.and_eq_true, decide_eq_true_eq, Bool.not_eq_true'] at h1
      apply inv_stc
      refine ⟨ndK_mapSet hnd, pg_connect tempId now hpg h1.1, cg_objSet hcg rfl⟩
    · exact ⟨hnd, hpg, hcg⟩
  · simp only [step]
    split_ifs with h1
    · rcases hobj : objGet w.objs cn with _ | c
      · simp only [hobj]
        exact ⟨hnd, hpg, hcg⟩
      · simp only [hobj]
        have hcc : c.conn = cn := hcg cn c hobj
        exact inv_handleMessage env w raw c now ⟨hnd, hpg, hcg⟩ (by rw [hcc]; exact hobj)
    · exact ⟨hnd, hpg, hcg⟩
  · simp only [step]
    split_ifs with h1
    · rcases hobj : objGet w.objs cn with _ | c
      · simp only [hobj]
        exact ⟨hnd, hpg, hcg⟩
      · simp only [hobj]
        exact ⟨ndK_filter _ hnd, pg_delete _ hpg, hcg⟩
    · exact ⟨hnd, hpg, hcg⟩
  · simp only [step, sweepWorld]
    exact ⟨ndK_filter _ hnd, pg_filter _ hpg, hcg⟩

theorem bpl_clients (env : Env) (w : World) :
    (broadcastPeerList env w).clients = w.clients := rfl

theorem bpl_objs (env : Env) (w : World) :
    (broadcastPeerList env w).objs = w.objs := rfl

theorem bpl_live (env : Env) (w : World) :
    (broadcastPeerList env w).live = w.live := rfl

theorem contains_true_iff_mem {l : List Nat} {x : Nat} :
    l.contains x = true ↔ x ∈ l :=
  List.elem_iff

theorem relay_clients_nofail (env : Env) (w : World) (msg : SignalMessage)
    (hnf : NoFail env) : (relayMessage env w msg).clients = w.clients := by
  simp only [relayMessage]
  split
  · rfl
  · split
    · rfl
    · split
      · rfl
      · exact stc_clients_nofail _ _ _ _ (hnf _)

theorem relay_objs (env : Env) (w : World) (msg : SignalMessage) :
    (relayMessage env w msg).objs = w.objs := by
  simp only [relayMessage]
  split
  · rfl
  · split
    · rfl
    · split
      · rfl
      · exact stc_objs _ _ _ _

theorem relay_live (env : Env) (w : World) (msg : SignalMessage) :
    (relayMessage env w msg).live = w.live := by
  simp only [relayMessage]
  split
  · rfl
  · split
    · rfl
    · split
      · rfl
      · exact stc_live _ _ _ _

theorem liRO_handleRegister (env : Env) (w : World) (msg : SignalMessage)
    (c : SignalClient) (hnf : NoFail env)
    (hli : liRO w.live w.clients w.objs)
    (hobj : objGet w.objs c.conn = some c) (hlive : c.conn ∈ w.live) :
    liRO (handleRegister env w msg c).live (handleRegister env w msg c).clients
      (handleRegister env w msg c).objs := by
  simp only [handleRegister]
  split_ifs with h1 h2
  · exact hli
  · rw [stc_live, stc_clients_nofail _ _ _ _ (hnf _), stc_objs]
    exact hli
  · rw [bpl_live, bpl_clients, bpl_objs,
        stc_live, stc_clients_nofail _ _ _ _ (hnf _), stc_objs]
    intro cn0 hm c' hc'
    by_cases hcc : c.conn = cn0
    · rw [objGet_objSet, if_pos hcc] at hc'
      obtain rfl : ({ c with id := msg.peerId.getD "" } : SignalClient) = c' := by
        injection hc'
      rw [mapGet_mapSet, if_pos rfl, hcc]
    · rw [objGet_objSet, if_neg hcc] at hc'
      have hold : mapGet w.clients c'.id = some cn0 := hli cn0 hm c' hc'
      have hcid : mapGet w.clients c.id = some c.conn := hli c.conn hlive c hobj
      have hne1 : c'.id ≠ c.id := by
        intro he
        rw [he, hcid] at hold
        exact hcc (by injection hold)
      have hne2 : msg.peerId.getD "" ≠ c'.id := by
        intro he
        rw [he] at h2
        have hconf : registerConflict w c'.id c = true := by
          simp only [registerConflict, hold, hc', Option.map_some']
          simp [hne1]
        exact h2 hconf
      rw [mapGet_mapSet, if_neg hne2, mapGet_mapDelete, if_neg hne1]
      exact hold

theorem liRO_handleMessage (env : Env) (w : World) (raw : Option SignalMessage)
    (c : SignalClient) (now : Nat) (hnf : NoFail env)
    (hli : liRO w.live w.clients w.objs)
    (hobj : objGet w.objs c.conn = some c) (hlive : c.conn ∈ w.live) :
    liRO (handleMessage env w raw c now).live (handleMessage env w raw c now).clients
      (handleMessage env w raw c now).objs := by
  rcases raw with _ | msg
  · simp only [handleMessage]
    exact hli
  · have hli1 : liRO w.live w.clients (objSet w.objs c.conn { c with lastSeen := now }) := by
      intro cn0 hm c' hc'
      by_cases hcc : c.conn = cn0
      · rw [objGet_objSet, if_pos hcc] at hc'
        obtain rfl : ({ c with lastSeen := now } : SignalClient) = c' := by injection hc'
        have := hli cn0 hm c (by rw [hcc] at hobj; exact hobj)
        exact this
      · rw [objGet_objSet, if_neg hcc] at hc'
        exact hli cn0 hm c' hc'
    have hobj1 : objGet (objSet w.objs c.conn { c with lastSeen := now }) c.conn
        = some { c with lastSeen := now } := by
      rw [objGet_objSet, if_pos rfl]
    simp only [handleMessage]
    split_ifs with h1 h2 h3
    · exact liRO_handleRegister env _ msg _ hnf hli1 hobj1 hlive
    · rw [relay_live, relay_clients_nofail _ _ _ hnf, relay_objs]
      exact hli1
    · rw [sendPeerList, stc_live, stc_clients_nofail _ _ _ _ (hnf _), stc_objs]
      exact hli1
    · exact hli1

theorem invL_step (env : Env) (w : World) (e : Event)
    (hnf : NoFail env) (h : InvL w) : InvL (step env w e) := by
  obtain ⟨hInv, hli⟩ := h
  refine ⟨inv_step env w e hInv, ?_⟩
  rcases e with ⟨cn, tempId, now⟩ | ⟨cn, raw, now⟩ | cn | now
  · simp only [step]
    split_ifs with h1
    · simp only [Bool.and_eq_true, decide_eq_true_eq, Bool.not_eq_true'] at h1
      rw [stc_live, stc_clients_nofail _ _ _ _ (hnf _), stc_objs]
      intro cn0 hm c' hc'
      by_cases hcc : cn = cn0
      · rw [objGet_objSet, if_pos hcc] at hc'
        obtain rfl : (⟨tempId, cn, now⟩ : SignalClient) = c' := by injection hc'
        rw [mapGet_mapSet, if_pos rfl, hcc]
      · rw [objGet_objSet, if_neg hcc] at hc'
        rcases List.mem_cons.mp hm with h2 | h2
        · exact absurd h2.symm hcc
        · have hold : mapGet w.clients c'.id = some cn0 := hli cn0 h2 c' hc'
          have hne : tempId ≠ c'.id := by
            intro he
            have h12 := h1.2
            rw [he, mapHas, hold] at h12
            simp at h12
          rw [mapGet_mapSet, if_neg hne]
          exact hold
    · exact hli
  · simp only [step]
    split_ifs with h1
    · rcases hobj : objGet w.objs cn with _ | c
      · simp only [hobj]
        exact hli
      · simp only [hobj]
        have hcc : c.conn = cn := hInv.2.2 cn c hobj
        exact liRO_handleMessage env w raw c now hnf hli
          (by rw [hcc]; exact hobj)
          (by rw [hcc]; exact contains_true_iff_mem.mp h1)
    · exact hli
  · simp only [step]
    split_ifs with h1
    · rcases hobj : objGet w.objs cn with _ | c
      · simp only [hobj]
        exact hli
      · simp only [hobj]
        rw [hd_live, hd_clients, hd_objs]
        intro cn0 hm c' hc'
        have hm2 := List.mem_filter.mp hm
        have hne0 : cn0 ≠ cn := by simpa using hm2.2
        have hold : mapGet w.clients c'.id = some cn0 := hli cn0 hm2.1 c' hc'
        have hne1 : c'.id ≠ c.id := by
          intro he
          have hcn : mapGet w.clients c.id = some cn :=
            hli cn (contains_true_iff_mem.mp h1) c hobj
          rw [he, hcn] at hold
          injection hold with hh
          exact hne0 hh.symm
        rw [mapGet_mapDelete, if_neg hne1]
        exact hold
    · exact hli
  · simp only [step, sweepWorld]
    rw [bpl_live, bpl_clients, bpl_objs]
    intro cn0 hm c' hc'
    have hm2 := List.mem_filter.mp hm
    have hnotevict : ((w.clients.filter (entryIdle w.objs now)).map Prod.snd).contains cn0 = false := by
      simpa using hm2.2
    have hold : mapGet w.clients c'.id = some cn0 := hli cn0 hm2.1 c' hc'
    have hidle : entryIdle w.objs now (c'.id, cn0) = false := by
      by_contra hcon
      have hidle2 : entryIdle w.objs now (c'.id, cn0) = true := by
        revert hcon
        cases entryIdle w.objs now (c'.id, cn0) <;> simp
      have hmem : (c'.id, cn0) ∈ w.clients.filter (entryIdle w.objs now) :=
        List.mem_filter.mpr ⟨mapGet_mem hold, hidle2⟩
      have : cn0 ∈ (w.clients.filter (entryIdle w.objs now)).map Prod.snd :=
        List.mem_map.mpr ⟨(c'.id, cn0), hmem, rfl⟩
      rw [contains_true_iff_mem.mpr this] at hnotevict
      exact Bool.noConfusion hnotevict
    rw [mapGet_filter_of_ndK _ hInv.1 hold, hidle]
    simp

theorem invL_run (w : World) (script : List (Env × Event))
    (hnf : ∀ p ∈ script, NoFail p.1) (h : InvL w) : InvL (run w script) := by
  induction script generalizing w with
  | nil => exact h
  | cons p rest ih =>
    exact ih (step p.1 w p.2) (fun q hq => hnf q (List.mem_cons_of_mem _ hq))
      (invL_step p.1 w p.2 (hnf p (List.mem_cons_self _ _)) h)

theorem invL_init : InvL World.init := by
  refine ⟨⟨?_, ?_, ?_⟩, ?_⟩
  · simp [ndK, World.init]
  · intro p hp
    simp [World.init] at hp
  · intro cn c hc
    simp [World.init, objGet] at hc
  · intro cn hm
    simp [World.init] at hm

theorem peerIdFalsy_false {s : String} (h : s ≠ "") :
    peerIdFalsy (some s) = false := by
  simp only [peerIdFalsy]
  rw [Bool.eq_false_iff]
  intro he
  exact h ((String.isEmpty_iff s).mp he)

theorem sweep_clients (env : Env) (w : World) (now : Nat) :
    (sweepWorld env w now).clients
      = w.clients.filter (fun p => !entryIdle w.objs now p) := rfl

theorem sweep_objs (env : Env) (w : World) (now : Nat) :
    (sweepWorld env w now).objs = w.objs := rfl

theorem sweep_live (env : Env) (w : World) (now : Nat) :
    (sweepWorld env w now).live
      = w.live.filter (fun cn =>
          !((w.clients.filter (entryIdle w.objs now)).map Prod.snd).contains cn) := rfl

theorem sweep_sent (env : Env) (w : World) (now : Nat) :
    (sweepWorld env w now).sent
      = w.sent ++ broadcastSends env (w.clients.filter (fun p => !entryIdle w.objs now p))
          w.objs (peersMsg (w.clients.filter (fun p => !entryIdle w.objs now p))) := rfl

/-- Claim C7: when a send to a specific client throws (socket open,
`socket.send` raises), `sendToClient` treats that client as implicitly
disconnected: the result is exactly the `handleDisconnect` cleanup, the
client's registry entry (under its current id) is gone, and a full
directory broadcast is appended to the trace.  The model's `sendToClient`
is a total function — the failure is swallowed by the catch block and
never reaches the caller. -/
theorem send_failure_implicit_disconnect (env : Env) (w : World)
    (c : SignalClient) (m : SignalMessage)
    (hopen : env.isOpen c.conn = true) (hfail : env.sendFails c.conn = true) :
    sendToClient env w c m = handleDisconnect env w c ∧
    mapGet (sendToClient env w c m).clients c.id = none ∧
    (sendToClient env w c m).sent =
      w.sent ++ broadcastSends env (mapDelete w.clients c.id) w.objs
        (peersMsg (mapDelete w.clients c.id)) := by
  have h1 : sendToClient env w c m = handleDisconnect env w c := by
    unfold sendToClient
    rw [hopen, hfail]
    simp
  refine ⟨h1, ?_, ?_⟩
  · rw [h1, hd_clients, mapGet_mapDelete, if_pos rfl]
  · rw [h1]
    rfl

/-- Witness for C7: in the one-client world `wA`, a send to client
`("t", conn 0)` through the throwing environment `envFail0` removes the
entry under "t" and appends the (here empty) directory broadcast. -/
theorem send_failure_implicit_disconnect_witness :
    sendToClient envFail0 wA ⟨"t", 0, 0⟩ regX = handleDisconnect envFail0 wA ⟨"t", 0, 0⟩ ∧
    mapGet (sendToClient envFail0 wA ⟨"t", 0, 0⟩ regX).clients "t" = none ∧
    (sendToClient envFail0 wA ⟨"t", 0, 0⟩ regX).sent =
      wA.sent ++ broadcastSends envFail0 (mapDelete wA.clients "t") wA.objs
        (peersMsg (mapDelete wA.clients "t")) :=
  send_failure_implicit_disconnect envFail0 wA ⟨"t", 0, 0⟩ regX rfl rfl

/-- Claim C9: every event handled by the server (connection accept,
registration, disconnect, eviction sweep) preserves the invariant that
each registry key maps to a client object whose `id` field equals that
key (together with key uniqueness and `conn`-field consistency, the
`Inv` bundle); consequently a key holding a given client record must be
that record's `id`, so deleting by the record's id (as `handleDisconnect`
does) touches no entry under any other key. -/
theorem ops_preserve_key_eq_id (env : Env) (w : World) (e : Event) (h : Inv w) :
    Inv (step env w e) ∧
    (∀ k cn c, mapGet w.clients k = some cn → objGet w.objs cn = some c → c.id = k) ∧
    (∀ (c : SignalClient) (k : String), k ≠ c.id →
        mapGet (mapDelete w.clients c.id) k = mapGet w.clients k) := by
  refine ⟨inv_step env w e h, ?_, ?_⟩
  · intro k cn c hm ho
    rcases h.2.1 (k, cn) (mapGet_mem hm) with ⟨c0, hc0, hid⟩
    rw [ho] at hc0
    obtain rfl : c = c0 := by injection hc0
    exact hid
  · intro c k hk
    rw [mapGet_mapDelete, if_neg hk]

/-- Witness for C9: the invariant holds initially and survives a
concrete accept event. -/
theorem ops_preserve_key_eq_id_witness :
    Inv (step envOK World.init (.connect 0 "t" 0)) :=
  (ops_preserve_key_eq_id envOK World.init (.connect 0 "t" 0) invL_init.1).1

/-- Claim C10: a register frame whose `peerId` is the empty string is
treated exactly like one with `peerId` absent — JS `!message.peerId` is
true for "" — so it is logged and dropped: no reply, no registry change;
only the `lastSeen` update performed by `handleMessage` before dispatch
survives. -/
theorem register_empty_peerId_dropped (env : Env) (w : World) (c : SignalClient)
    (now : Nat) (msg : SignalMessage)
    (hty : msg.type = "register") (hpid : msg.peerId = some "") :
    handleMessage env w (some msg) c now =
      { w with objs := objSet w.objs c.conn { c with lastSeen := now } } ∧
    handleMessage env w (some msg) c now =
      handleMessage env w (some { msg with peerId := none }) c now := by
  have hf : peerIdFalsy msg.peerId = true := by rw [hpid]; rfl
  have h1 : handleMessage env w (some msg) c now =
      { w with objs := objSet w.objs c.conn { c with lastSeen := now } } := by
    simp only [handleMessage]
    rw [if_pos hty]
    simp only [handleRegister]
    rw [if_pos hf]
  have h2 : handleMessage env w (some { msg with peerId := none }) c now =
      { w with objs := objSet w.objs c.conn { c with lastSeen := now } } := by
    simp only [handleMessage]
    rw [if_pos (show ({ msg with peerId := none } : SignalMessage).type = "register" from hty)]
    simp only [handleRegister]
    rw [if_pos (show peerIdFalsy ({ msg with peerId := none } : SignalMessage).peerId
          = true from rfl)]
  exact ⟨h1, h1.trans h2.symm⟩

/-- Witness for C10 at a concrete world and frame. -/
theorem register_empty_peerId_dropped_witness :
    handleMessage envOK wA (some { type := "register", peerId := some "" }) ⟨"t", 0, 0⟩ 7 =
      { wA with objs := objSet wA.objs 0 { id := "t", conn := 0, lastSeen := 7 } } ∧
    handleMessage envOK wA (some { type := "register", peerId := some "" }) ⟨"t", 0, 0⟩ 7 =
      handleMessage envOK wA (some { type := "register", peerId := none }) ⟨"t", 0, 0⟩ 7 :=
  register_empty_peerId_dropped envOK wA ⟨"t", 0, 0⟩ 7
    { type := "register", peerId := some "" } rfl rfl

/-- Claim C2: a successful registration that changes the requesting
client's id from `oldId = c.id` (which the client currently holds in the
registry) to a different `newPeerId` removes `oldId` from the registry
and binds `newPeerId` to the same connection `c.conn` that held `oldId`;
no entry survives under either id besides the new binding.  The
`registered` confirmation send is assumed not to throw (a throw would
run the separately specified transport-failure cleanup). -/
theorem register_atomic_reassign (env : Env) (w : World) (msg : SignalMessage)
    (c : SignalClient) (pid : String)
    (hpid : msg.peerId = some pid) (hne : pid ≠ "")
    (hold : mapGet w.clients c.id = some c.conn)
    (hchange : pid ≠ c.id)
    (hnoconf : registerConflict w pid c = false)
    (hsf : env.sendFails c.conn = false) :
    mapGet (handleRegister env w msg c).clients c.id = none ∧
    mapGet (handleRegister env w msg c).clients pid = some c.conn := by
  simp only [handleRegister, hpid, Option.getD_some]
  rw [if_neg (show ¬ peerIdFalsy (some pid) = true by rw [peerIdFalsy_false hne]; simp),
      if_neg (show ¬ registerConflict w pid c = true by rw [hnoconf]; simp)]
  rw [bpl_clients, stc_clients_nofail env _ ⟨pid, c.conn, c.lastSeen⟩ _ hsf]
  constructor
  · rw [mapGet_mapSet, if_neg hchange, mapGet_mapDelete, if_pos rfl]
  · rw [mapGet_mapSet, if_pos rfl]

/-- Witness for C2: in `wA`, the provisional client "t" (connection 0)
registers as "q": "t" disappears, "q" maps to connection 0. -/
theorem register_atomic_reassign_witness :
    mapGet (handleRegister envOK wA regQ ⟨"t", 0, 0⟩).clients "t" = none ∧
    mapGet (handleRegister envOK wA regQ ⟨"t", 0, 0⟩).clients "q" = some 0 :=
  register_atomic_reassign envOK wA regQ ⟨"t", 0, 0⟩ "q" rfl (by decide) rfl
    (by decide) rfl rfl

/-- Claim C4 (amended): a register request whose `peerId` is already
bound to a connection holding a different RECORD ID — the comparison the
code actually performs — gets exactly the reply
error{message:"Peer ID already in use"} and nothing else: the resulting
state differs from the input state only by that one trace entry, so the
registry is untouched and no broadcast happens.  The error reply itself
is assumed deliverable (socket open, send does not throw). -/
theorem register_conflict_error_only (env : Env) (w : World) (msg : SignalMessage)
    (c : SignalClient) (pid : String) (cn' : Nat) (tc : SignalClient)
    (hpid : msg.peerId = some pid) (hne : pid ≠ "")
    (hmap : mapGet w.clients pid = some cn')
    (htc : objGet w.objs cn' = some tc) (hneq : tc.id ≠ c.id)
    (hopen : env.isOpen c.conn = true) (hsf : env.sendFails c.conn = false) :
    handleRegister env w msg c = { w with sent := w.sent ++ [(c.conn, idInUseMsg)] } := by
  have hconf : registerConflict w pid c = true := by
    simp only [registerConflict, hmap, htc, Option.map_some']
    simp [hneq]
  simp only [handleRegister, hpid, Option.getD_some]
  rw [if_neg (show ¬ peerIdFalsy (some pid) = true by rw [peerIdFalsy_false hne]; simp),
      if_pos hconf]
  unfold sendToClient
  rw [hopen, hsf]
  simp

/-- Witness for C4: in `wB` (where connection 0 is registered as "q" and
connection 1 still holds its provisional id "u"), connection 1's request
to register "q" yields exactly the error reply and no other change. -/
theorem register_conflict_error_only_witness :
    handleRegister envOK wB regQ ⟨"u", 1, 2⟩ =
      { wB with sent := wB.sent ++ [(1, idInUseMsg)] } :=
  register_conflict_error_only envOK wB regQ ⟨"u", 1, 2⟩ "q" 0 ⟨"q", 0, 3⟩ rfl
    (by decide) rfl rfl (by decide) rfl rfl

/-- Claim C4 is false as stated.  After `script6`, id "x" is mapped to
connection 2 while the requester, connection 0, is a different live
connection — the claim's trigger.  Yet its register{peerId:"x"} is not
answered with the error reply: because the guard compares record ids
("x" on both records), the code treats it as a re-registration.  The
only trace entries the frame adds are a `registered` confirmation to
connection 0 and the directory broadcast, no error is ever sent to
connection 0, and the registry is rekeyed: "x" now maps to connection 0. -/
theorem register_conflict_missed_cex :
    mapGet (run World.init script6).clients "x" = some 2 ∧
    (2 : Nat) ≠ 0 ∧
    (run World.init script6).live.contains 0 = true ∧
    (run World.init (script6 ++ [(envOK, .frame 0 (some regX) 6)])).sent
      = (run World.init script6).sent ++
        [(0, { type := "registered", peerId := some "x" }),
         (1, peersMsg [("u", 1), ("x", 0)]),
         (0, peersMsg [("u", 1), ("x", 0)])] ∧
    (0, idInUseMsg) ∉ (run World.init (script6 ++ [(envOK, .frame 0 (some regX) 6)])).sent ∧
    mapGet (run World.init (script6 ++ [(envOK, .frame 0 (some regX) 6)])).clients "x"
      = some 0 := by
  refine ⟨rfl, by decide, rfl, rfl, by decide, rfl⟩

/-- Claim C6: at a sweep firing at time `now`, a registry entry whose
client has been idle for more than `MAX_IDLE_TIME` is removed from the
registry and its connection terminated (dropped from the live set); an
entry not over the threshold survives with its binding intact. -/
theorem sweep_evicts_idle (env : Env) (w : World) (now : Nat)
    (k : String) (cn : Nat) (c : SignalClient)
    (hnd : ndK w.clients)
    (hmap : mapGet w.clients k = some cn) (hobj : objGet w.objs cn = some c) :
    (now - c.lastSeen > MAX_IDLE_TIME →
        mapGet (sweepWorld env w now).clients k = none ∧
        cn ∉ (sweepWorld env w now).live) ∧
    (¬ now - c.lastSeen > MAX_IDLE_TIME →
        mapGet (sweepWorld env w now).clients k = some cn) := by
  have hidval : entryIdle w.objs now (k, cn) = decide (now - c.lastSeen > MAX_IDLE_TIME) := by
    simp [entryIdle, hobj]
  constructor
  · intro hgt
    have hidle : entryIdle w.objs now (k, cn) = true := by
      rw [hidval]
      exact decide_eq_true hgt
    constructor
    · rw [sweep_clients, mapGet_filter_of_ndK _ hnd hmap, hidle]
      simp
    · rw [sweep_live]
      intro hmem
      have hmem2 := List.mem_filter.mp hmem
      have hev : cn ∈ (w.clients.filter (entryIdle w.objs now)).map Prod.snd :=
        List.mem_map.mpr ⟨(k, cn), List.mem_filter.mpr ⟨mapGet_mem hmap, hidle⟩, rfl⟩
      rw [contains_true_iff_mem.mpr hev] at hmem2
      exact Bool.noConfusion hmem2.2
  · intro hle
    have hidle : entryIdle w.objs now (k, cn) = false := by
      rw [hidval]
      exact decide_eq_false hle
    rw [sweep_clients, mapGet_filter_of_ndK _ hnd hmap, hidle]
    simp

/-- Witness for C6: the single client of `wA` (lastSeen 0) is evicted by
a sweep at time 100000 (idle 100000 > 90000). -/
theorem sweep_evicts_idle_witness :
    mapGet (sweepWorld envOK wA 100000).clients "t" = none ∧
    0 ∉ (sweepWorld envOK wA 100000).live :=
  (sweep_evicts_idle envOK wA 100000 "t" 0 ⟨"t", 0, 0⟩
    (by show (wA.clients.map Prod.fst).Nodup; decide) rfl rfl).1 (by decide)

theorem noFail_envOK : NoFail envOK := fun _ => rfl

theorem benign_envOK : Benign envOK := fun _ => ⟨rfl, rfl⟩

theorem noFail_scriptA : ∀ p ∈ scriptA, NoFail p.1 := by
  intro p hp
  simp only [scriptA, List.mem_singleton] at hp
  rw [hp]
  exact fun _ => rfl

theorem noFail_scriptW : ∀ p ∈ scriptW, NoFail p.1 := by
  intro p hp
  simp only [scriptW, List.mem_cons, List.not_mem_nil, or_false] at hp
  rcases hp with rfl | rfl <;> exact fun _ => rfl

/-- Claim C3: a relay frame (the router sends `offer`/`answer`/
`ice-candidate` through `relayMessage`) with target `t` is delivered
verbatim — the untouched message object is the only new trace entry — to
the connection registered under `t` exactly when `t` is in the registry;
with `t` absent or no target field, the state is returned unchanged: no
delivery and no error reply to the sender.  Sockets are assumed healthy
(`Benign`); `pgRO`/`cgO` are the structural invariants of reachable
states. -/
theorem relay_delivers_iff_present (env : Env) (w : World) (msg : SignalMessage)
    (hb : Benign env) (hpg : pgRO w.clients w.objs) (hcg : cgO w.objs) :
    (∀ t cn, msg.target = some t → mapGet w.clients t = some cn →
        relayMessage env w msg = { w with sent := w.sent ++ [(cn, msg)] }) ∧
    (∀ t, msg.target = some t → mapGet w.clients t = none →
        relayMessage env w msg = w) ∧
    (msg.target = none → relayMessage env w msg = w) := by
  refine ⟨?_, ?_, ?_⟩
  · intro t cn ht hm
    rcases hpg (t, cn) (mapGet_mem hm) with ⟨tc, htc, hid⟩
    have hconn : tc.conn = cn := hcg cn tc htc
    simp only [relayMessage, ht, hm, htc]
    unfold sendToClient
    rw [(hb tc.conn).1, (hb tc.conn).2]
    simp [hconn]
  · intro t ht hm
    simp only [relayMessage, ht, hm]
  · intro ht
    simp only [relayMessage, ht]

/-- Witness for C3 at the one-client world `wA` and the offer targeting
"t". -/
theorem relay_delivers_iff_present_witness :
    (∀ t cn, offerT.target = some t → mapGet wA.clients t = some cn →
        relayMessage envOK wA offerT = { wA with sent := wA.sent ++ [(cn, offerT)] }) ∧
    (∀ t, offerT.target = some t → mapGet wA.clients t = none →
        relayMessage envOK wA offerT = wA) ∧
    (offerT.target = none → relayMessage envOK wA offerT = wA) :=
  relay_delivers_iff_present envOK wA offerT benign_envOK
    (invL_run World.init scriptA noFail_scriptA invL_init).1.2.1
    (invL_run World.init scriptA noFail_scriptA invL_init).1.2.2

/-- Claim C8: every sweep appends a directory broadcast: each entry
surviving the sweep receives the `peers` snapshot of the post-sweep
registry, and this happens unconditionally — in particular when nothing
was idle the registry is untouched and the broadcast still goes out. -/
theorem sweep_always_broadcasts (env : Env) (w : World) (now : Nat)
    (hb : Benign env) (hpg : pgRO w.clients w.objs) (hcg : cgO w.objs) :
    (∀ p ∈ (sweepWorld env w now).clients,
        (p.2, peersMsg (sweepWorld env w now).clients) ∈ (sweepWorld env w now).sent) ∧
    ((∀ p ∈ w.clients, entryIdle w.objs now p = false) →
        (sweepWorld env w now).clients = w.clients) := by
  constructor
  · intro p hp
    rw [sweep_clients] at hp
    have hpw : p ∈ w.clients := List.mem_of_mem_filter hp
    rcases hpg p hpw with ⟨c, hc, hid⟩
    have hconn : c.conn = p.2 := hcg p.2 c hc
    rw [sweep_sent, sweep_clients]
    apply List.mem_append_right
    apply List.mem_filterMap.mpr
    refine ⟨p, hp, ?_⟩
    rw [hc]
    simp only [hconn]
    simp [(hb p.2).1, (hb p.2).2]
  · intro hno
    rw [sweep_clients]
    apply List.filter_eq_self.mpr
    intro p hp
    rw [hno p hp]
    rfl

/-- Witness for C8 at `wA` with a sweep at time 1 (nobody idle): the
registry is untouched and the lone client still gets the broadcast. -/
theorem sweep_always_broadcasts_witness :
    (∀ p ∈ (sweepWorld envOK wA 1).clients,
        (p.2, peersMsg (sweepWorld envOK wA 1).clients) ∈ (sweepWorld envOK wA 1).sent) ∧
    ((∀ p ∈ wA.clients, entryIdle wA.objs 1 p = false) →
        (sweepWorld envOK wA 1).clients = wA.clients) :=
  sweep_always_broadcasts envOK wA 1 benign_envOK
    (invL_run World.init scriptA noFail_scriptA invL_init).1.2.1
    (invL_run World.init scriptA noFail_scriptA invL_init).1.2.2

/-- Claim C1 is false as stated.  After `script6`, id "x" is registered
to connection 2, while connection 0 — implicitly disconnected by an
earlier send failure, its socket never closed, its record id still "x" —
is still live.  Connection 0's register{peerId:"x"}, whose peerId is
mapped to the different connection 2, passes the conflict check (which
compares record ids, not connections: both records carry id "x") and
replaces the mapping: afterwards "x" resolves to connection 0. -/
theorem register_takeover_cex :
    mapGet (run World.init script6).clients "x" = some 2 ∧
    (2 : Nat) ≠ 0 ∧
    (run World.init script6).live.contains 0 = true ∧
    mapGet (run World.init (script6 ++ [(envOK, .frame 0 (some regX) 6)])).clients "x"
      = some 0 := by
  refine ⟨?_, by decide, ?_, ?_⟩ <;> rfl

/-- Claim C1 (amended): over event sequences in which no send throws
(no transport failures), the registry keeps at most one entry per id
(`ndK`) and a register request whose peerId is already mapped to a
connection other than the requester's is rejected by the conflict check,
leaving that mapping intact. -/
theorem register_no_replace (script : List (Env × Event))
    (hnf : ∀ p ∈ script, NoFail p.1)
    (env : Env) (henv : NoFail env)
    (cn cn' now : Nat) (msg : SignalMessage) (pid : String)
    (hty : msg.type = "register") (hpid : msg.peerId = some pid)
    (hmap : mapGet (run World.init script).clients pid = some cn')
    (hdiff : cn' ≠ cn) :
    ndK (run World.init script).clients ∧
    mapGet (step env (run World.init script) (.frame cn (some msg) now)).clients pid
      = some cn' := by
  obtain ⟨⟨hnd, hpg, hcg⟩, hli⟩ := invL_run World.init script hnf invL_init
  refine ⟨hnd, ?_⟩
  simp only [step]
  split_ifs with h1
  · rcases hobj : objGet (run World.init script).objs cn with _ | c
    · simp only [hobj]
      exact hmap
    · simp only [hobj]
      simp only [handleMessage]
      rw [if_pos hty]
      simp only [handleRegister, hpid, Option.getD_some]
      split_ifs with hfal hcon
      · exact hmap
      · rw [stc_clients_nofail env _ _ _ (henv _)]
        exact hmap
      · exfalso
        apply hcon
        have hemp : pid ≠ "" := by
          intro he
          exact hfal (by rw [he]; rfl)
        have hcc : c.conn = cn := hcg cn c hobj
        have hlive : cn ∈ (run World.init script).live := contains_true_iff_mem.mp h1
        have hcid : mapGet (run World.init script).clients c.id = some cn :=
          hli cn hlive c hobj
        have hpidne : pid ≠ c.id := by
          intro he
          rw [← he, hmap] at hcid
          exact hdiff (by injection hcid)
        rcases hpg (pid, cn') (mapGet_mem hmap) with ⟨tc, htc, hid⟩
        have hcnne : ¬ c.conn = cn' := by
          rw [hcc]
          exact fun hh => hdiff hh.symm
        have hobj' : objGet (objSet (run World.init script).objs c.conn
            { c with lastSeen := now }) cn' = some tc := by
          rw [objGet_objSet, if_neg hcnne]
          exact htc
        simp only [registerConflict, hmap, hobj', Option.map_some', hid]
        simp [hpidne]
  · exact hmap

/-- Witness for the amended C1: in the transport-failure-free world
`wW`, connection 1's attempt to register "q" (held by connection 5) is
rejected and "q" stays mapped to connection 5. -/
theorem register_no_replace_witness :
    ndK (run World.init scriptW).clients ∧
    mapGet (step envOK (run World.init scriptW) (.frame 1 (some regQ) 3)).clients "q"
      = some 5 :=
  register_no_replace scriptW noFail_scriptW envOK noFail_envOK 1 5 3 regQ "q"
    rfl rfl rfl (by decide)

theorem hr_objs_lastSeen (env : Env) (w : World) (msg : SignalMessage)
    (c : SignalClient) (hobj : objGet w.objs c.conn = some c) :
    ∃ c', objGet (handleRegister env w msg c).objs c.conn = some c' ∧
      c'.lastSeen = c.lastSeen := by
  simp only [handleRegister]
  split_ifs with h1 h2
  · exact ⟨c, hobj, rfl⟩
  · rw [stc_objs]
    exact ⟨c, hobj, rfl⟩
  · rw [bpl_objs, stc_objs]
    exact ⟨{ c with id := msg.peerId.getD "" }, by rw [objGet_objSet, if_pos rfl], rfl⟩

/-- Claim C5 is false as stated: `JSON.parse` sits before the `lastSeen`
update inside the `try`, so a frame that fails to decode jumps to the
catch block and does NOT update `lastSeen`.  Concretely: the `wA` client
has `lastSeen = 0`; a malformed frame arriving at time 99 leaves the
state (and so `lastSeen`) unchanged. -/
theorem malformed_frame_no_lastSeen_update_cex :
    (objGet wA.objs 0).map SignalClient.lastSeen = some 0 ∧
    handleMessage envOK wA none ⟨"t", 0, 0⟩ 99 = wA ∧
    ¬ (objGet (handleMessage envOK wA none ⟨"t", 0, 0⟩ 99).objs 0).map
        SignalClient.lastSeen = some 99 := by
  refine ⟨rfl, rfl, ?_⟩
  decide

/-- Claim C5 (amended): every frame that decodes successfully updates
the client's `lastSeen` to the current time before dispatch, whatever
its type, and the update survives the dispatch; a malformed frame is
logged and dropped with the state — hence the connection — untouched,
but its `lastSeen` is NOT updated. -/
theorem lastSeen_updated_before_dispatch (env : Env) (w : World)
    (c : SignalClient) (now : Nat) :
    (∀ msg : SignalMessage, ∃ c',
        objGet (handleMessage env w (some msg) c now).objs c.conn = some c' ∧
        c'.lastSeen = now) ∧
    handleMessage env w none c now = w := by
  constructor
  · intro msg
    have hobj1 : objGet (objSet w.objs c.conn { c with lastSeen := now }) c.conn
        = some { c with lastSeen := now } := by
      rw [objGet_objSet, if_pos rfl]
    simp only [handleMessage]
    split_ifs with h1 h2 h3
    · exact hr_objs_lastSeen env _ msg _ hobj1
    · rw [relay_objs]
      exact ⟨{ c with lastSeen := now }, hobj1, rfl⟩
    · rw [sendPeerList, stc_objs]
      exact ⟨{ c with lastSeen := now }, hobj1, rfl⟩
    · exact ⟨{ c with lastSeen := now }, hobj1, rfl⟩
  · rfl

end SignalServer
